import Mathlib

/-!
Verification model of the `ai-readme-mcp` repository core.

The development shallowly embeds the three core components of the source:

* the document mutation engine `ReadmeUpdater` (`src/core/detector.ts`,
  updater part): documents are embedded as their character lists
  (`List Char`), a faithful model of JavaScript strings for the ASCII
  markdown the program manipulates;
* the resolution engine `ContextRouter` (`src/core/router.ts`): relative
  paths are embedded as their lists of `/`-separated segments
  (`List String`); the string operations of the source (`split('/')`,
  `startsWith(dir + '/')`, `path.dirname`) correspond to list operations
  on segments for the normalized relative paths the program uses, and the
  one place where the source's string-level behaviour differs from plain
  segment arithmetic (splitting the directory string `"."` yields the
  one-element array `["."]`) is modelled explicitly (`jsSplitSlash`);
* the scanner `AIReadmeScanner` (`src/core/scanner.ts`): file paths stay
  plain `String`s; the `glob` library call and the file system are inputs
  of the model (a file list and a partial read function).

Third-party and runtime collaborators (the `glob` and `minimatch`
libraries, the file system) are parameters of the embedded functions:
`minimatch` is an opaque boolean matcher, reads are `Option`-valued
functions (`none` models a read failure / missing file).
-/

namespace AiReadme

/-! ### Document mutation engine (`ReadmeUpdater`, `src/core/detector.ts`)

Documents are `List Char`.  `splitLines` and `joinLines` model
JavaScript's `content.split('\n')` and `lines.join('\n')`. -/

/-- Whitespace characters of JavaScript's `\s` class and of
`String.prototype.trim`, modelled for the ASCII range (the rarely used
Unicode space code points are not modelled; the documents the program
manipulates are ASCII markdown). -/
def isJsWhitespace (c : Char) : Bool :=
  c == ' ' || c == '\t' || c == '\n' || c == '\x0b' || c == '\x0c' || c == '\r'

/-- JavaScript `String.prototype.trim`. -/
def jsTrim (s : List Char) : List Char :=
  ((s.dropWhile isJsWhitespace).reverse.dropWhile isJsWhitespace).reverse

/-- JavaScript `str.split('\n')`: the empty string yields `[""]`, and a
trailing newline yields a final empty piece, exactly as in JavaScript. -/
def splitLines : List Char → List (List Char)
  | [] => [[]]
  | c :: rest =>
    if c = '\n' then [] :: splitLines rest
    else
      match splitLines rest with
      | [] => [[c]]
      | l :: ls => (c :: l) :: ls

/-- JavaScript `lines.join('\n')`. -/
def joinLines : List (List Char) → List Char
  | [] => []
  | [l] => l
  | l :: l' :: ls => l ++ '\n' :: joinLines (l' :: ls)

theorem splitLines_ne_nil (s : List Char) : splitLines s ≠ [] := by
  induction s with
  | nil => simp [splitLines]
  | cons c rest ih =>
    simp only [splitLines]
    split
    · simp
    · cases h : splitLines rest with
      | nil => simp
      | cons l ls => simp [h]

theorem joinLines_splitLines (s : List Char) : joinLines (splitLines s) = s := by
  induction s with
  | nil => rfl
  | cons c rest ih =>
    simp only [splitLines]
    split
    · rename_i hc
      subst hc
      cases h : splitLines rest with
      | nil => exact absurd h (splitLines_ne_nil rest)
      | cons l ls => rw [h] at ih; simpa [joinLines] using ih
    · cases h : splitLines rest with
      | nil => exact absurd h (splitLines_ne_nil rest)
      | cons l ls =>
        rw [h] at ih
        cases ls with
        | nil => simpa [joinLines] using ih
        | cons l' ls' => simpa [joinLines] using ih

/-- Heading level of a markdown line: the source's
`line.match(/^(#{1,6})\s/)`.  The regex matches exactly when the line
starts with a run of `1` to `6` `#` characters immediately followed by a
whitespace character (for a run of more than six `#`s every backtracking
attempt of `#{1,6}` is followed by a further `#`, so the regex fails);
the level is then the length of the run, and `0` when the regex fails.
Models `ReadmeUpdater.getSectionLevel`. -/
def getSectionLevel (line : List Char) : Nat :=
  let h := (line.takeWhile (fun c => c == '#')).length
  match (line.drop h).head? with
  | some c => if 1 ≤ h ∧ h ≤ 6 ∧ isJsWhitespace c then h else 0
  | none => 0

/-- Index of the first line whose trimmed text equals the trimmed section
heading; `none` models the `-1` of `Array.prototype.findIndex`.  Models
`ReadmeUpdater.findSectionIndex`. -/
def findSectionIndex (lines : List (List Char)) (sec : List Char) : Option Nat :=
  match lines with
  | [] => none
  | l :: ls =>
    if jsTrim l = jsTrim sec then some 0
    else (findSectionIndex ls sec).map (· + 1)

/-- Loop condition of `ReadmeUpdater.findSectionEnd`: a line terminates
the section when it is non-empty (`if (!line) continue`), its trimmed
text starts with `#`, and its heading level is at most the section's
level. -/
def isSectionBoundary (sectionLevel : Nat) (line : List Char) : Bool :=
  line ≠ [] && (jsTrim line).head? == some '#' && getSectionLevel (jsTrim line) ≤ sectionLevel

/-- The scan loop of `ReadmeUpdater.findSectionEnd`: `rest` is the list
of remaining lines and `i` the index of its first element; returns the
index of the first boundary line, or the index one past the last line
when no boundary is found (which is `lines.length` when `rest` is a
suffix of `lines` starting at `i`). -/
def sectionEndLoop (sectionLevel : Nat) : List (List Char) → Nat → Nat
  | [], i => i
  | line :: more, i =>
    if isSectionBoundary sectionLevel line then i
    else sectionEndLoop sectionLevel more (i + 1)

/-- Models `ReadmeUpdater.findSectionEnd`: starting from the heading at
`startIndex`, find the index of the first following line that terminates
the heading's scope, or the document length.  The guard
`if (!startLine) return lines.length` fires when the index is out of
range (`undefined`) or the line is the empty string. -/
def findSectionEnd (lines : List (List Char)) (startIndex : Nat) : Nat :=
  let startLine := (lines.get? startIndex).getD []
  if startLine = [] then lines.length
  else sectionEndLoop (getSectionLevel startLine) (lines.drop (startIndex + 1)) (startIndex + 1)

/-- First occurrence of `needle` in `hay` for JavaScript
`String.prototype.replace` with a string pattern: `some (pre, suf)` with
`hay = pre ++ needle ++ suf` at the earliest position, `none` when
`needle` does not occur. -/
def firstMatch (needle : List Char) : List Char → Option (List Char × List Char)
  | [] => if needle.isPrefixOf [] then some ([], []) else none
  | c :: rest =>
    if needle.isPrefixOf (c :: rest) then some ([], (c :: rest).drop needle.length)
    else (firstMatch needle rest).map (fun pr => (c :: pr.1, pr.2))

/-- The backquote character, `$`-escape `$` + backquote of JavaScript
replacement strings. -/
def backquoteChar : Char := Char.ofNat 96

/-- JavaScript `GetSubstitution` for a string (non-regex) pattern: in the
replacement string, `$$` yields `$`, `$&` the matched text, `$` +
backquote the text before the match, `$'` the text after the match; a
`$` followed by anything else is literal (with a string pattern there
are no capture groups, so `$n` and `$<name>` stay literal). -/
def getSubstitution (matched pre suf : List Char) : List Char → List Char
  | [] => []
  | [c] => [c]
  | c :: d :: rest =>
    if c = '$' then
      if d = '$' then '$' :: getSubstitution matched pre suf rest
      else if d = '&' then matched ++ getSubstitution matched pre suf rest
      else if d = backquoteChar then pre ++ getSubstitution matched pre suf rest
      else if d = '\'' then suf ++ getSubstitution matched pre suf rest
      else c :: getSubstitution matched pre suf (d :: rest)
    else c :: getSubstitution matched pre suf (d :: rest)

/-- JavaScript `hay.replace(needle, repl)` with a string pattern: replace
the first occurrence of `needle` (after `GetSubstitution` expansion of
`repl`), or return `hay` unchanged when `needle` does not occur. -/
def jsReplaceFirst (hay needle repl : List Char) : List Char :=
  match firstMatch needle hay with
  | none => hay
  | some (pre, suf) => pre ++ getSubstitution needle pre suf repl ++ suf

/-- The five operation kinds of `UpdateOperation.type`. -/
inductive OpType
  | append
  | prepend
  | replace
  | insertAfter
  | insertBefore
deriving DecidableEq, Repr

/-- Models the `UpdateOperation` record of `src/core/detector.ts`: the
TypeScript fields `section` and `searchText` are optional, `content` is
required.  (`section` is a Lean keyword, hence the field name
`sectionText`.) -/
structure UpdateOperation where
  type : OpType
  sectionText : Option (List Char)
  searchText : Option (List Char)
  content : List Char
deriving DecidableEq, Repr

/-- One element of `UpdateResult.changes`. -/
structure Change where
  operation : OpType
  sectionText : Option (List Char)
  linesAdded : Nat
  linesRemoved : Nat
deriving DecidableEq, Repr

/-- JavaScript truthiness of an optional string: `undefined` and the
empty string are falsy.  Used by the `if (!operation.searchText)` and
`if (!operation.section)` guards. -/
def jsTruthy : Option (List Char) → Bool
  | none => false
  | some s => s ≠ []

/-- Models `ReadmeUpdater.applyOperation`: apply a single operation to a
document, returning the updated document and the change record, or the
message of the thrown `Error`. -/
def applyOperation (content : List Char) (op : UpdateOperation) :
    Except (List Char) (List Char × Change) :=
  let lines := splitLines content
  match op.type with
  | .append =>
    -- updatedLines.push('', operation.content)
    let updatedLines := lines ++ [[], op.content]
    .ok (joinLines updatedLines,
      ⟨.append, op.sectionText, (splitLines op.content).length + 1, 0⟩)
  | .prepend =>
    -- updatedLines.unshift(operation.content, '')
    let updatedLines := op.content :: [] :: lines
    .ok (joinLines updatedLines,
      ⟨.prepend, op.sectionText, (splitLines op.content).length + 1, 0⟩)
  | .replace =>
    if jsTruthy op.searchText then
      let s := op.searchText.getD []
      let original := joinLines lines
      let newContent := jsReplaceFirst original s op.content
      if newContent = original then
        .error ("Text not found: ".data ++ s)
      else
        .ok (joinLines (splitLines newContent),
          ⟨.replace, op.sectionText, (splitLines op.content).length, (splitLines s).length⟩)
    else .error "searchText is required for replace operation".data
  | .insertAfter =>
    if jsTruthy op.sectionText then
      let sec := op.sectionText.getD []
      match findSectionIndex lines sec with
      | none => .error ("Section not found: ".data ++ sec)
      | some sectionIndex =>
        -- updatedLines.splice(insertIndex, 0, '', operation.content)
        let insertIndex := findSectionEnd lines sectionIndex
        let updatedLines := lines.take insertIndex ++ [[], op.content] ++ lines.drop insertIndex
        .ok (joinLines updatedLines,
          ⟨.insertAfter, op.sectionText, (splitLines op.content).length + 1, 0⟩)
    else .error "section is required for insert-after operation".data
  | .insertBefore =>
    if jsTruthy op.sectionText then
      let sec := op.sectionText.getD []
      match findSectionIndex lines sec with
      | none => .error ("Section not found: ".data ++ sec)
      | some sectionIndex =>
        -- updatedLines.splice(sectionIndex, 0, operation.content, '')
        let updatedLines := lines.take sectionIndex ++ [op.content, []] ++ lines.drop sectionIndex
        .ok (joinLines updatedLines,
          ⟨.insertBefore, op.sectionText, (splitLines op.content).length + 1, 0⟩)
    else .error "section is required for insert-before operation".data

/-- The operation loop of `ReadmeUpdater.update`: thread the document
through the operations in order, stopping at the first thrown error. -/
def runOps : List Char → List UpdateOperation → Except (List Char) (List Char × List Change)
  | c, [] => .ok (c, [])
  | c, op :: rest =>
    match applyOperation c op with
    | .error e => .error e
    | .ok (c', ch) =>
      match runOps c' rest with
      | .error e => .error e
      | .ok (c'', chs) => .ok (c'', ch :: chs)

/-- Models the `UpdateResult` record. -/
structure UpdateResult where
  success : Bool
  changes : List Change
  error : Option (List Char)
deriving DecidableEq, Repr

/-- Models `ReadmeUpdater.update`: `stored` is the current content of the
file; the operations run sequentially on an in-memory copy and the file
is rewritten only after every operation succeeded, so a thrown error is
caught, reported as a failure result, and leaves the stored document
untouched.  The second component is the content of the stored file after
the call. -/
def update (stored : List Char) (ops : List UpdateOperation) : UpdateResult × List Char :=
  match runOps stored ops with
  | .ok (c, chs) => (⟨true, chs, none⟩, c)
  | .error e => (⟨false, [], some e⟩, stored)

/-! ### Helper lemmas for the mutation engine -/

theorem jsTrim_nil : jsTrim [] = [] := rfl

theorem jsTruthy_some_of_ne_nil {s : List Char} (h : s ≠ []) : jsTruthy (some s) = true := by
  simp [jsTruthy, h]

theorem findSectionIndex_some {lines : List (List Char)} {sec : List Char} {idx : Nat}
    (h : findSectionIndex lines sec = some idx) :
    idx < lines.length ∧ jsTrim (lines.getD idx []) = jsTrim sec := by
  induction lines generalizing idx with
  | nil => simp [findSectionIndex] at h
  | cons l ls ih =>
    simp only [findSectionIndex] at h
    split at h
    · cases h
      rename_i heq
      exact ⟨Nat.succ_pos _, heq⟩
    · match hrec : findSectionIndex ls sec with
      | none => rw [hrec] at h; simp at h
      | some j =>
        rw [hrec] at h
        have h' : j + 1 = idx := Option.some.inj h
        subst h'
        obtain ⟨h1, h2⟩ := ih hrec
        refine ⟨by simpa using Nat.succ_lt_succ h1, ?_⟩
        simpa [List.getD] using h2

theorem sectionEndLoop_spec (lvl : Nat) (rest : List (List Char)) (i : Nat) :
    i ≤ sectionEndLoop lvl rest i ∧
    sectionEndLoop lvl rest i ≤ i + rest.length ∧
    (∀ j, i ≤ j → j < sectionEndLoop lvl rest i →
      isSectionBoundary lvl (rest.getD (j - i) []) = false) ∧
    (sectionEndLoop lvl rest i < i + rest.length →
      isSectionBoundary lvl (rest.getD (sectionEndLoop lvl rest i - i) []) = true) := by
  induction rest generalizing i with
  | nil =>
    refine ⟨Nat.le_refl i, by simp [sectionEndLoop], ?_, ?_⟩
    · intro j h1 h2
      exact absurd (Nat.lt_of_le_of_lt h1 h2) (Nat.lt_irrefl i)
    · intro h
      simp [sectionEndLoop] at h
  | cons line more ih =>
    by_cases hb : isSectionBoundary lvl line = true
    · refine ⟨?_, ?_, ?_, ?_⟩ <;> simp only [sectionEndLoop, if_pos hb]
      · exact Nat.le_refl i
      · simp
      · intro j h1 h2
        exact absurd (Nat.lt_of_le_of_lt h1 h2) (Nat.lt_irrefl i)
      · intro _
        simpa [List.getD] using hb
    · obtain ⟨ih1, ih2, ih3, ih4⟩ := ih (i + 1)
      have hloop : sectionEndLoop lvl (line :: more) i = sectionEndLoop lvl more (i + 1) := by
        simp [sectionEndLoop, hb]
      refine ⟨?_, ?_, ?_, ?_⟩ <;> rw [hloop]
      · exact Nat.le_trans (Nat.le_succ i) ih1
      · simpa [Nat.add_comm, Nat.add_left_comm, Nat.add_assoc] using ih2
      · intro j h1 h2
        rcases Nat.eq_or_lt_of_le h1 with h1' | h1'
        · subst h1'
          simpa [List.getD] using (Bool.eq_false_iff.mpr hb)
        · have := ih3 j h1' h2
          have hji : j - i = (j - (i + 1)) + 1 := by omega
          rw [hji]
          simpa [List.getD] using this
      · intro h
        have h' : sectionEndLoop lvl more (i + 1) < (i + 1) + more.length := by
          simpa [Nat.add_comm, Nat.add_left_comm, Nat.add_assoc] using h
        have := ih4 h'
        have hei : sectionEndLoop lvl more (i + 1) - i =
            (sectionEndLoop lvl more (i + 1) - (i + 1)) + 1 := by omega
        rw [hei]
        simpa [List.getD] using this

theorem getD_drop (l : List (List Char)) (n m : Nat) :
    (l.drop n).getD m [] = l.getD (n + m) [] := by
  simp [List.getD_eq_get?, List.get?_drop]

theorem findSectionEnd_spec (lines : List (List Char)) (startIndex : Nat)
    (hlt : startIndex < lines.length)
    (hne : lines.getD startIndex [] ≠ []) :
    startIndex < findSectionEnd lines startIndex ∧
    findSectionEnd lines startIndex ≤ lines.length ∧
    (∀ j, startIndex < j → j < findSectionEnd lines startIndex →
      isSectionBoundary (getSectionLevel (lines.getD startIndex []))
        (lines.getD j []) = false) ∧
    (findSectionEnd lines startIndex < lines.length →
      isSectionBoundary (getSectionLevel (lines.getD startIndex []))
        (lines.getD (findSectionEnd lines startIndex) []) = true) := by
  have hsl : (lines.get? startIndex).getD [] = lines.getD startIndex [] := by
    simp [List.getD_eq_get?]
  have hunfold : findSectionEnd lines startIndex =
      sectionEndLoop (getSectionLevel (lines.getD startIndex []))
        (lines.drop (startIndex + 1)) (startIndex + 1) := by
    simp only [findSectionEnd, hsl]
    rw [if_neg hne]
  obtain ⟨h1, h2, h3, h4⟩ := sectionEndLoop_spec
    (getSectionLevel (lines.getD startIndex [])) (lines.drop (startIndex + 1)) (startIndex + 1)
  have hlen : (startIndex + 1) + (lines.drop (startIndex + 1)).length = lines.length := by
    rw [List.length_drop]; omega
  rw [hlen] at h2 h4
  refine ⟨?_, ?_, ?_, ?_⟩
  · rw [hunfold]; exact Nat.lt_of_lt_of_le (Nat.lt_succ_self startIndex) h1
  · rw [hunfold]; exact h2
  · intro j hj1 hj2
    rw [hunfold] at hj2
    have := h3 j hj1 hj2
    rwa [getD_drop, Nat.add_sub_cancel' hj1] at this
  · intro h
    rw [hunfold] at h
    have := h4 h
    rw [getD_drop, Nat.add_sub_cancel' h1, ← hunfold] at this
    exact this

/-! ### Claim C1: batch atomicity of `ReadmeUpdater.update` -/

/-- C1: for every stored document text and every list of edit operations,
if some operation of the batch fails, `update` returns a failure result
(`success = false`, with the error message of the first failing
operation) and the stored document is unchanged — no earlier operations
of the batch are committed; if all operations succeed, the result is
success and the stored document is the fully-updated text with all
operations applied in the order given (`runOps` is exactly the in-order
sequential application, stopping at the first failure). -/
theorem update_batch_atomic (stored : List Char) (ops : List UpdateOperation) :
    (∀ e, runOps stored ops = .error e →
      update stored ops = (⟨false, [], some e⟩, stored)) ∧
    (∀ final chs, runOps stored ops = .ok (final, chs) →
      update stored ops = (⟨true, chs, none⟩, final)) := by
  constructor
  · intro e h
    simp [update, h]
  · intro final chs h
    simp [update, h]

/-- Witness for C1, the spec's scenario: the document `"# T\n\nbody"`
receiving `insert-before` targeting the non-existent heading `"## Z"`
fails with a "Section not found" result, and the stored document remains
byte-identical to the input. -/
theorem update_batch_atomic_witness :
    runOps "# T\n\nbody".data [⟨.insertBefore, some "## Z".data, none, "new".data⟩] =
      .error ("Section not found: ".data ++ "## Z".data) ∧
    update "# T\n\nbody".data [⟨.insertBefore, some "## Z".data, none, "new".data⟩] =
      (⟨false, [], some ("Section not found: ".data ++ "## Z".data)⟩, "# T\n\nbody".data) :=
  ⟨rfl, (update_batch_atomic "# T\n\nbody".data
    [⟨.insertBefore, some "## Z".data, none, "new".data⟩]).1 _ rfl⟩

/-! ### Claim C3: the `insert-after` insertion boundary -/

/-- Heading level exactly as claim C3 words it: the count of leading `#`
characters of the line (the source instead uses the regex
`/^(#{1,6})\s/`, which yields `0` for a run of more than six `#`s or a
run not followed by whitespace). -/
def claimHeadingLevel (line : List Char) : Nat :=
  (line.takeWhile (fun c => c == '#')).length

/-- Scan loop for `claimSectionEnd`. -/
def claimSectionEndLoop (lvl : Nat) : List (List Char) → Nat → Nat
  | [], i => i
  | line :: more, i =>
    if line.head? == some '#' && claimHeadingLevel line ≤ lvl then i
    else claimSectionEndLoop lvl more (i + 1)

/-- Insertion boundary exactly as claim C3 words it: scanning forward
from the matched heading line, the first line beginning with `#` whose
heading level (count of leading `#` characters) is less than or equal to
the target heading's level, or end of document. -/
def claimSectionEnd (lines : List (List Char)) (startIndex : Nat) : Nat :=
  claimSectionEndLoop (claimHeadingLevel (lines.getD startIndex []))
    (lines.drop (startIndex + 1)) (startIndex + 1)

/-- Counterexample to C3 as stated: in the document
`"## A\nx\n####### s\n## B"`, the line `"####### s"` begins with `#` and
has seven leading `#`s, so by the claim's rule (level `7 ≤ 2` fails) it
is not a boundary and insertion after `"## A"` should land immediately
before `"## B"`; the code's regex `/^(#{1,6})\s/` fails on seven `#`s,
`getSectionLevel` returns `0 ≤ 2`, and the code inserts before
`"####### s"` instead.  The two resulting documents differ. -/
theorem insert_after_claim_counterexample :
    claimSectionEnd (splitLines "## A\nx\n####### s\n## B".data) 0 = 3 ∧
    findSectionEnd (splitLines "## A\nx\n####### s\n## B".data) 0 = 2 ∧
    applyOperation "## A\nx\n####### s\n## B".data
        ⟨.insertAfter, some "## A".data, none, "NEW".data⟩ =
      .ok ("## A\nx\n\nNEW\n####### s\n## B".data,
        ⟨.insertAfter, some "## A".data, 2, 0⟩) ∧
    ("## A\nx\n\nNEW\n####### s\n## B".data ==
      joinLines ((splitLines "## A\nx\n####### s\n## B".data).take 3 ++
        [[], "NEW".data] ++ (splitLines "## A\nx\n####### s\n## B".data).drop 3)) = false :=
  ⟨rfl, rfl, rfl, rfl⟩

/-- C3 (amended): for every document and every `insert-after` operation
whose section heading exists, the insertion point is the end of that
heading's scope: scanning forward from the matched heading line, the
boundary is the first non-empty line whose trimmed text begins with `#`
and whose heading level — the count of leading `#` characters when that
count is between one and six and is followed by a whitespace character,
and `0` otherwise (so e.g. a line of seven `#`s or of `#`s without a
following space also terminates the scope) — is less than or equal to
the target heading's level (computed the same way), or end-of-document;
a blank separator and the new content are inserted immediately before
that boundary. -/
theorem insert_after_section_scope (doc sec newText : List Char) (idx e : Nat)
    (hsec : jsTrim sec ≠ [])
    (hfind : findSectionIndex (splitLines doc) sec = some idx)
    (he : e = findSectionEnd (splitLines doc) idx) :
    applyOperation doc ⟨.insertAfter, some sec, none, newText⟩ =
      .ok (joinLines ((splitLines doc).take e ++ [[], newText] ++ (splitLines doc).drop e),
        ⟨.insertAfter, some sec, (splitLines newText).length + 1, 0⟩) ∧
    idx < e ∧ e ≤ (splitLines doc).length ∧
    (∀ j, idx < j → j < e →
      isSectionBoundary (getSectionLevel ((splitLines doc).getD idx []))
        ((splitLines doc).getD j []) = false) ∧
    (e < (splitLines doc).length →
      isSectionBoundary (getSectionLevel ((splitLines doc).getD idx []))
        ((splitLines doc).getD e []) = true) := by
  subst he
  obtain ⟨hidx, htrim⟩ := findSectionIndex_some hfind
  have hne : (splitLines doc).getD idx [] ≠ [] := by
    intro h0
    rw [h0, jsTrim_nil] at htrim
    exact hsec htrim.symm
  have hsecne : sec ≠ [] := by
    intro h0
    rw [h0] at hsec
    exact hsec jsTrim_nil
  obtain ⟨s1, s2, s3, s4⟩ := findSectionEnd_spec (splitLines doc) idx hidx hne
  refine ⟨?_, s1, s2, s3, s4⟩
  simp only [applyOperation, jsTruthy_some_of_ne_nil hsecne, if_true, hfind, Option.getD_some]

/-- Witness for C3 (amended), the spec's scenario: with headings `## A`,
`### A.1`, `## B`, inserting after `## A` places the new content at the
end of `## A`'s scope, strictly between `### A.1`'s content and `## B`:
the boundary is line `4`, the `## B` line. -/
theorem insert_after_section_scope_witness :
    jsTrim "## A".data ≠ [] ∧
    findSectionIndex (splitLines "## A\ncontent\n### A.1\nsub\n## B".data) "## A".data = some 0 ∧
    (4 : Nat) = findSectionEnd (splitLines "## A\ncontent\n### A.1\nsub\n## B".data) 0 ∧
    (applyOperation "## A\ncontent\n### A.1\nsub\n## B".data
        ⟨.insertAfter, some "## A".data, none, "NEW".data⟩ =
      .ok (joinLines ((splitLines "## A\ncontent\n### A.1\nsub\n## B".data).take 4 ++
          [[], "NEW".data] ++ (splitLines "## A\ncontent\n### A.1\nsub\n## B".data).drop 4),
        ⟨.insertAfter, some "## A".data, (splitLines "NEW".data).length + 1, 0⟩) ∧
      0 < 4 ∧ 4 ≤ (splitLines "## A\ncontent\n### A.1\nsub\n## B".data).length ∧
      (∀ j, 0 < j → j < 4 →
        isSectionBoundary
          (getSectionLevel ((splitLines "## A\ncontent\n### A.1\nsub\n## B".data).getD 0 []))
          ((splitLines "## A\ncontent\n### A.1\nsub\n## B".data).getD j []) = false) ∧
      (4 < (splitLines "## A\ncontent\n### A.1\nsub\n## B".data).length →
        isSectionBoundary
          (getSectionLevel ((splitLines "## A\ncontent\n### A.1\nsub\n## B".data).getD 0 []))
          ((splitLines "## A\ncontent\n### A.1\nsub\n## B".data).getD 4 []) = true)) :=
  ⟨by decide, rfl, rfl,
    insert_after_section_scope "## A\ncontent\n### A.1\nsub\n## B".data "## A".data
      "NEW".data 0 4 (by decide) rfl rfl⟩

/-! ### Helper lemmas for `replace` -/

/-- Number of positions at which `needle` occurs in `hay` (overlapping
occurrences counted separately). -/
def countSubstr (needle hay : List Char) : Nat :=
  ((List.range (hay.length + 1)).filter (fun i => needle.isPrefixOf (hay.drop i))).length

theorem firstMatch_some_split {needle hay p s : List Char}
    (h : firstMatch needle hay = some (p, s)) : hay = p ++ needle ++ s := by
  induction hay generalizing p s with
  | nil =>
    simp only [firstMatch] at h
    split at h
    · rename_i hp
      cases h
      have hn : needle = [] := by
        simpa using List.isPrefixOf_iff_prefix.mp hp
      simp [hn]
    · cases h
  | cons c rest ih =>
    simp only [firstMatch] at h
    split at h
    · rename_i hp
      cases h
      have := List.prefix_iff_eq_append.mp (List.isPrefixOf_iff_prefix.mp hp)
      simpa using this.symm
    · match hrec : firstMatch needle rest with
      | none => rw [hrec] at h; simp at h
      | some (p', s') =>
        rw [hrec] at h
        have h2 : (c :: p', s') = (p, s) := Option.some.inj h
        cases h2
        simp [ih hrec]

theorem firstMatch_isSome_of_isPrefixOf {needle hay : List Char}
    (h : needle.isPrefixOf hay) : (firstMatch needle hay).isSome := by
  cases hay <;> simp [firstMatch, h]

theorem firstMatch_isSome_of_split (needle p s : List Char) :
    (firstMatch needle (p ++ needle ++ s)).isSome := by
  induction p with
  | nil =>
    apply firstMatch_isSome_of_isPrefixOf
    exact List.isPrefixOf_iff_prefix.mpr (by simpa using List.prefix_append needle s)
  | cons c p' ih =>
    simp only [List.cons_append, firstMatch]
    split
    · simp
    · simpa using ih

theorem countSubstr_pos_of_split (needle p s : List Char) :
    0 < countSubstr needle (p ++ needle ++ s) := by
  have hmem : p.length ∈ (List.range ((p ++ needle ++ s).length + 1)).filter
      (fun i => needle.isPrefixOf ((p ++ needle ++ s).drop i)) := by
    rw [List.mem_filter, List.mem_range]
    refine ⟨by simp [List.length_append]; omega, ?_⟩
    have hdrop : (p ++ needle ++ s).drop p.length = needle ++ s := by
      rw [List.append_assoc, List.drop_left]
    rw [hdrop]
    exact List.isPrefixOf_iff_prefix.mpr (List.prefix_append _ _)
  rw [countSubstr]
  exact List.length_pos.mpr (List.ne_nil_of_mem hmem)

theorem split_of_countSubstr_pos {needle hay : List Char}
    (h : 0 < countSubstr needle hay) : ∃ p s, hay = p ++ needle ++ s := by
  rw [countSubstr] at h
  obtain ⟨i, hmem⟩ := List.exists_mem_of_length_pos h
  rw [List.mem_filter, List.mem_range] at hmem
  obtain ⟨_, hpre⟩ := hmem
  have h1 := List.prefix_iff_eq_append.mp (List.isPrefixOf_iff_prefix.mp hpre)
  refine ⟨hay.take i, (hay.drop i).drop needle.length, ?_⟩
  calc hay = hay.take i ++ hay.drop i := (List.take_append_drop i hay).symm
    _ = hay.take i ++ (needle ++ (hay.drop i).drop needle.length) := by rw [h1]
    _ = hay.take i ++ needle ++ (hay.drop i).drop needle.length := by
        rw [List.append_assoc]

theorem firstMatch_eq_none_of_countSubstr_eq_zero {needle hay : List Char}
    (h : countSubstr needle hay = 0) : firstMatch needle hay = none := by
  cases hfm : firstMatch needle hay with
  | none => rfl
  | some pr =>
    obtain ⟨p, s⟩ := pr
    have hsplit := firstMatch_some_split hfm
    subst hsplit
    have := countSubstr_pos_of_split needle p s
    omega

theorem getSubstitution_of_no_dollar (matched pre suf : List Char) :
    ∀ repl : List Char, '$' ∉ repl → getSubstitution matched pre suf repl = repl
  | [], _ => rfl
  | [_], _ => rfl
  | c :: d :: rest, h => by
    have hc : ¬ c = '$' := fun hc => h (by simp [hc])
    simp only [getSubstitution, if_neg hc]
    rw [getSubstitution_of_no_dollar matched pre suf (d :: rest)
      (fun hm => h (List.mem_cons_of_mem _ hm))]

theorem jsReplaceFirst_some {hay needle repl p s : List Char}
    (hfm : firstMatch needle hay = some (p, s)) (hd : '$' ∉ repl) :
    jsReplaceFirst hay needle repl = p ++ repl ++ s := by
  simp [jsReplaceFirst, hfm, getSubstitution_of_no_dollar _ _ _ _ hd]

theorem jsReplaceFirst_none {hay needle repl : List Char}
    (hfm : firstMatch needle hay = none) : jsReplaceFirst hay needle repl = hay := by
  simp [jsReplaceFirst, hfm]

theorem applyOperation_replace_ok {doc S C p s : List Char}
    (hS : S ≠ []) (hfm : firstMatch S doc = some (p, s)) (hCS : C ≠ S) (hd : '$' ∉ C) :
    applyOperation doc ⟨.replace, none, some S, C⟩ =
      .ok (p ++ C ++ s, ⟨.replace, none, (splitLines C).length, (splitLines S).length⟩) := by
  have hsplit := firstMatch_some_split hfm
  have hnew : jsReplaceFirst doc S C = p ++ C ++ s := jsReplaceFirst_some hfm hd
  have hneq : ¬ jsReplaceFirst (joinLines (splitLines doc)) S C = joinLines (splitLines doc) := by
    rw [joinLines_splitLines, hnew]
    intro heq
    rw [hsplit] at heq
    exact hCS (List.append_cancel_left (List.append_cancel_right heq))
  simp only [applyOperation, jsTruthy_some_of_ne_nil hS, if_true, Option.getD_some]
  rw [if_neg hneq, joinLines_splitLines doc, hnew, joinLines_splitLines]

theorem applyOperation_replace_notfound {doc S C : List Char}
    (hS : S ≠ []) (h0 : countSubstr S doc = 0) :
    applyOperation doc ⟨.replace, none, some S, C⟩ =
      .error ("Text not found: ".data ++ S) := by
  have hfm := firstMatch_eq_none_of_countSubstr_eq_zero h0
  simp only [applyOperation, jsTruthy_some_of_ne_nil hS, if_true, Option.getD_some]
  rw [joinLines_splitLines, jsReplaceFirst_none hfm, if_pos rfl]

/-! ### Claim C6: the replace round-trip -/

/-- Counterexample to C6 as stated: `"aab"` contains exactly one
occurrence of the search text `"ab"`; replacing it with `"b"` succeeds
and yields `"ab"`, in which the search text is still present (the splice
of prefix `"a"` and replacement `"b"` recreates `"ab"`), contradicting
"S is absent" from the result. -/
theorem replace_roundtrip_counterexample :
    countSubstr "ab".data "aab".data = 1 ∧
    applyOperation "aab".data ⟨.replace, none, some "ab".data, "b".data⟩ =
      .ok ("ab".data, ⟨.replace, none, 1, 1⟩) ∧
    0 < countSubstr "ab".data "ab".data :=
  ⟨rfl, rfl, by decide⟩

/-- C6 (amended): on a document containing exactly one occurrence of a
non-empty search text `S`, a `replace` with content `C ≠ S` (and no `$`
substitution patterns) substitutes that occurrence: the document splits
as `p ++ S ++ s` at the occurrence and the result is `p ++ C ++ s` — `S`
may, however, be recreated across the splice boundaries; and on any
document in which `S` does not occur (in particular the result, when `S`
was not recreated), the same operation fails with "Text not found" and
leaves the stored document unchanged. -/
theorem replace_unique_occurrence (doc doc' S C p s : List Char)
    (hS : S ≠ []) (hone : countSubstr S doc = 1)
    (hfm : firstMatch S doc = some (p, s))
    (hCS : C ≠ S) (hd : '$' ∉ C)
    (h0 : countSubstr S doc' = 0) :
    doc = p ++ S ++ s ∧
    applyOperation doc ⟨.replace, none, some S, C⟩ =
      .ok (p ++ C ++ s, ⟨.replace, none, (splitLines C).length, (splitLines S).length⟩) ∧
    update doc' [⟨.replace, none, some S, C⟩] =
      (⟨false, [], some ("Text not found: ".data ++ S)⟩, doc') := by
  refine ⟨firstMatch_some_split hfm, applyOperation_replace_ok hS hfm hCS hd, ?_⟩
  have happ := applyOperation_replace_notfound (C := C) hS h0
  simp [update, runOps, happ]

/-- Witness for C6 (amended): `"abScd"` contains `"S"` exactly once;
replacing it with `"T"` yields `"abTcd"`, and on `"abTcd"` (which does
not contain `"S"`) the same operation fails with "Text not found" and
leaves the document unchanged. -/
theorem replace_unique_occurrence_witness :
    ("S".data ≠ ([] : List Char)) ∧
    countSubstr "S".data "abScd".data = 1 ∧
    firstMatch "S".data "abScd".data = some ("ab".data, "cd".data) ∧
    ("T".data ≠ "S".data) ∧ '$' ∉ "T".data ∧
    countSubstr "S".data "abTcd".data = 0 ∧
    ("abScd".data = "ab".data ++ "S".data ++ "cd".data ∧
      applyOperation "abScd".data ⟨.replace, none, some "S".data, "T".data⟩ =
        .ok ("ab".data ++ "T".data ++ "cd".data,
          ⟨.replace, none, (splitLines "T".data).length, (splitLines "S".data).length⟩) ∧
      update "abTcd".data [⟨.replace, none, some "S".data, "T".data⟩] =
        (⟨false, [], some ("Text not found: ".data ++ "S".data)⟩, "abTcd".data)) :=
  ⟨by decide, rfl, rfl, by decide, by decide, rfl,
    replace_unique_occurrence "abScd".data "abTcd".data "S".data "T".data "ab".data "cd".data
      (by decide) rfl rfl (by decide) (by decide) rfl⟩

/-! ### Claim C9: replace touches only the first occurrence -/

/-- Counterexample to C9 as stated: in `"aaa"` the search text `"aa"`
occurs more than once (at indices `0` and `1`); replacing with `"b"`
succeeds and yields `"ba"`, in which the later occurrence did not remain
unchanged — it overlapped the replaced first occurrence. -/
theorem replace_later_occurrence_counterexample :
    countSubstr "aa".data "aaa".data = 2 ∧
    applyOperation "aaa".data ⟨.replace, none, some "aa".data, "b".data⟩ =
      .ok ("ba".data, ⟨.replace, none, 1, 1⟩) ∧
    countSubstr "aa".data "ba".data = 0 :=
  ⟨rfl, rfl, rfl⟩

/-- C9 (amended): when the non-empty search text `S` occurs more than
once in the document and the replacement `C` differs from `S` (with no
`$` substitution patterns), `replace` substitutes only the first
occurrence: the document splits as `p ++ S ++ s` at the first occurrence,
the result is `p ++ C ++ s`, and the text after the replaced span is
carried over verbatim — so every later occurrence that does not overlap
the replaced first occurrence remains unchanged in the result. -/
theorem replace_first_only (doc S C p s : List Char)
    (hS : S ≠ []) (hmult : 2 ≤ countSubstr S doc) (hCS : C ≠ S) (hd : '$' ∉ C)
    (hfm : firstMatch S doc = some (p, s)) :
    doc = p ++ S ++ s ∧
    applyOperation doc ⟨.replace, none, some S, C⟩ =
      .ok (p ++ C ++ s, ⟨.replace, none, (splitLines C).length, (splitLines S).length⟩) ∧
    (p ++ C ++ s).drop (p.length + C.length) = doc.drop (p.length + S.length) := by
  have hsplit := firstMatch_some_split hfm
  refine ⟨hsplit, applyOperation_replace_ok hS hfm hCS hd, ?_⟩
  rw [hsplit, ← List.length_append p C, ← List.length_append p S,
    List.drop_left, List.drop_left]

/-- Witness for C9 (amended): `"ab"` occurs twice in `"XabYab"`;
replacing with `"c"` yields `"XcYab"`, and the second, non-overlapping
occurrence survives in the carried-over suffix `"Yab"`. -/
theorem replace_first_only_witness :
    ("ab".data ≠ ([] : List Char)) ∧
    2 ≤ countSubstr "ab".data "XabYab".data ∧
    ("c".data ≠ "ab".data) ∧ '$' ∉ "c".data ∧
    firstMatch "ab".data "XabYab".data = some ("X".data, "Yab".data) ∧
    ("XabYab".data = "X".data ++ "ab".data ++ "Yab".data ∧
      applyOperation "XabYab".data ⟨.replace, none, some "ab".data, "c".data⟩ =
        .ok ("X".data ++ "c".data ++ "Yab".data,
          ⟨.replace, none, (splitLines "c".data).length, (splitLines "ab".data).length⟩) ∧
      ("X".data ++ "c".data ++ "Yab".data).drop ("X".data.length + "c".data.length) =
        "XabYab".data.drop ("X".data.length + "ab".data.length)) :=
  ⟨by decide, by decide, by decide, by decide, rfl,
    replace_first_only "XabYab".data "ab".data "c".data "X".data "Yab".data
      (by decide) (by decide) (by decide) (by decide) rfl⟩

/-! ### Context resolution engine (`ContextRouter`, `src/core/router.ts`)

Relative paths are embedded as lists of `/`-separated segments: the
string `"apps/frontend/AI_README.md"` is `["apps","frontend","AI_README.md"]`
and the directory string `"."` is `[]`.  Under this correspondence (for
the normalized relative paths the program uses: non-empty segments, no
`/` or `\` inside a segment, no segment equal to `"."`),
`targetDir === readmeDir` is list equality,
`targetDir.startsWith(readmeDir + '/')` is strict list-prefix, and
`path.dirname` drops the final segment.  The one string-level quirk that
does not reduce to segment arithmetic — `'.'.split('/')` is `["."]`, an
array of length one — is modelled explicitly by `jsSplitSlash`. -/

/-- Relevance classes of a resolved context. -/
inductive Relevance
  | root
  | direct
  | parent
deriving DecidableEq, Repr

/-- Models the `ReadmeEntry` record consumed by the router; `path` is in
segment representation, `content` is the optional cached body. -/
structure ReadmeEntry where
  path : List String
  scope : String
  level : Nat
  patterns : List String
  content : Option String
deriving DecidableEq, Repr

/-- Models the `ReadmeIndex` record (the `Date` timestamp is a plain
number here). -/
structure ReadmeIndex where
  projectRoot : String
  readmes : List ReadmeEntry
  lastUpdated : Nat
deriving DecidableEq, Repr

/-- Models the `ReadmeContext` record. -/
structure ReadmeContext where
  path : List String
  content : String
  relevance : Relevance
  distance : Nat
deriving DecidableEq, Repr

/-- Node's `path.dirname` on a normalized relative path, in segment
representation: drop the final segment (for a single-segment path the
result is the root directory `"."`, i.e. `[]`). -/
def dirOfPath (p : List String) : List String := p.dropLast

/-- Test of the source regex `/\.[^./\\]+$/` (a file-type-looking
suffix): the path ends in a `.` followed by at least one character that
is none of `.`, `/`, `\`.  The matched region cannot contain a `/`, so
it lies within the final path segment, to which the test is applied. -/
def hasFileSuffix (s : String) : Bool :=
  let r := s.data.reverse
  let ext := r.takeWhile (fun c => !(c == '.' || c == '/' || c == '\\'))
  !ext.isEmpty && (r.drop ext.length).head? == some '.'

/-- Models `ContextRouter.getFileDir`: a target path without a
file-type-looking suffix is treated as a directory itself; otherwise its
parent directory is used. -/
def getFileDir (targetPath : List String) : List String :=
  if hasFileSuffix (targetPath.getLastD "") then targetPath.dropLast else targetPath

/-- Models `ContextRouter.matchesPath`.  The `minimatch` library call is
the opaque matcher parameter `globM`. -/
def matchesPath (globM : List String → String → Bool)
    (targetPath : List String) (readme : ReadmeEntry) : Bool :=
  let readmeDir := dirOfPath readme.path
  let targetDir := getFileDir targetPath
  if readmeDir = [] then true
  else if targetDir = readmeDir then true
  else if readmeDir.isPrefixOf targetDir && targetDir != readmeDir then true
  else readme.patterns.any (fun pat => globM targetPath pat)

/-- JavaScript `dir.split('/')` on a rendered directory string: the root
directory renders as `"."` and splits into the one-element array `["."]`;
a non-root directory splits into its segments. -/
def jsSplitSlash (d : List String) : List String :=
  if d = [] then ["."] else d

/-- The common-ancestor loop of `ContextRouter.calculateDistance`:
length of the longest common prefix, comparing segmentwise and stopping
at the first mismatch. -/
def commonDepth : List String → List String → Nat
  | a :: as, b :: bs => if a = b then commonDepth as bs + 1 else 0
  | _, _ => 0

/-- Body of `ContextRouter.calculateDistance` on the file's directory
and the README's directory. -/
def distOfDirs (fileDir readmeDir : List String) : Nat :=
  if readmeDir = [] then
    if fileDir = [] then 0 else fileDir.length
  else if fileDir = readmeDir then 0
  else if readmeDir.isPrefixOf fileDir && fileDir != readmeDir then
    fileDir.length - readmeDir.length
  else
    let fileParts := jsSplitSlash fileDir
    let readmeParts := jsSplitSlash readmeDir
    let c := commonDepth fileParts readmeParts
    (fileParts.length - c) + (readmeParts.length - c)

/-- Models `ContextRouter.calculateDistance`. -/
def calculateDistance (targetPath : List String) (readme : ReadmeEntry) : Nat :=
  distOfDirs (getFileDir targetPath) (dirOfPath readme.path)

/-- Models `ContextRouter.determineRelevance` (the final two branches of
the source both yield `parent`). -/
def determineRelevance (targetPath : List String) (readme : ReadmeEntry) : Relevance :=
  let fileDir := getFileDir targetPath
  let readmeDir := dirOfPath readme.path
  if readmeDir = [] then .root
  else if fileDir = readmeDir then .direct
  else if readmeDir.isPrefixOf fileDir && fileDir != readmeDir then .parent
  else .parent

/-- Fallback branch of `ContextRouter.getReadmeContent`: read the file
from storage (`fs`, keyed by the project-relative path) and degrade to
the error sentinel string on failure. -/
def readContentFallback (fs : List String → Option String) (readme : ReadmeEntry) : String :=
  match fs readme.path with
  | some t => t
  | none => "[Error: Could not read " ++ String.intercalate "/" readme.path ++ "]"

/-- Models `ContextRouter.getReadmeContent`: the guard
`if (readme.content)` is JavaScript truthiness, so both an absent and an
empty cached body fall through to a fresh read. -/
def getReadmeContent (fs : List String → Option String) (readme : ReadmeEntry) : String :=
  match readme.content with
  | some cached => if cached ≠ "" then cached else readContentFallback fs readme
  | none => readContentFallback fs readme

/-- Relevance tie-break order of the sort comparator:
`direct < parent < root`. -/
def relevanceOrder : Relevance → Nat
  | .direct => 0
  | .parent => 1
  | .root => 2

/-- The total preorder decided by the sort comparator of
`ContextRouter.getContextForPath` (distance difference, then relevance
order difference). -/
def contextLe (a b : ReadmeContext) : Prop :=
  a.distance < b.distance ∨
    (a.distance = b.distance ∧ relevanceOrder a.relevance ≤ relevanceOrder b.relevance)

instance : DecidableRel contextLe := fun a b => by
  unfold contextLe
  infer_instance

instance : IsTotal ReadmeContext contextLe :=
  ⟨fun a b => by unfold contextLe; omega⟩

instance : IsTrans ReadmeContext contextLe :=
  ⟨fun a b c hab hbc => by unfold contextLe at hab hbc ⊢; omega⟩

/-- Models `ContextRouter.getContextForPath`: collect a context for
every matching entry (skipping level-0 entries when `includeRoot` is
false), then sort.  `Array.prototype.sort` is a stable comparison sort
whose output is ordered by the comparator's total preorder `contextLe`;
it is modelled by the stable `List.insertionSort`. -/
def getContextForPath (globM : List String → String → Bool)
    (fs : List String → Option String) (index : ReadmeIndex)
    (targetPath : List String) (includeRoot : Bool) : List ReadmeContext :=
  let contexts := index.readmes.filterMap (fun readme =>
    if matchesPath globM targetPath readme && (includeRoot || readme.level != 0) then
      some ⟨readme.path, getReadmeContent fs readme,
        determineRelevance targetPath readme, calculateDistance targetPath readme⟩
    else none)
  List.insertionSort contextLe contexts

/-! ### Claim C2: the two-entry resolution scenario -/

/-- Root entry of the spec's scenario: `"AI_README.md"` at level 0. -/
def sampleRootEntry : ReadmeEntry :=
  ⟨["AI_README.md"], "root", 0, ["**/*"], some "ROOT"⟩

/-- Frontend entry of the spec's scenario:
`"apps/frontend/AI_README.md"` at level 2. -/
def sampleFrontendEntry : ReadmeEntry :=
  ⟨["apps", "frontend", "AI_README.md"], "apps-frontend",
    2, ["apps/frontend/**/*", "apps/frontend/*"], some "FRONTEND"⟩

/-- The scenario index holding the root and frontend entries. -/
def sampleIndex : ReadmeIndex :=
  ⟨"/project", [sampleRootEntry, sampleFrontendEntry], 0⟩

/-- The scenario target path
`"apps/frontend/src/components/atoms/Button.tsx"`. -/
def sampleTarget : List String :=
  ["apps", "frontend", "src", "components", "atoms", "Button.tsx"]

/-- A glob matcher that matches nothing; in the scenario both entries
match through the fast directory tests, so the pattern fallback is never
consulted. -/
def noGlobMatch : List String → String → Bool := fun _ _ => false

/-- A storage with no readable files; in the scenario both entries carry
cached content, so storage is never consulted. -/
def emptyFs : List String → Option String := fun _ => none

/-- Counterexample to C2 as stated: resolving the scenario target
returns the root entry with distance `5` — the number of segments of the
target's directory `apps/frontend/src/components/atoms` — not `3` as
claimed; no context for the root entry with distance `3` exists in the
result. -/
theorem sample_resolution_counterexample :
    (getContextForPath noGlobMatch emptyFs sampleIndex sampleTarget true).map
      (fun c => (c.path, c.distance)) =
      [(["apps", "frontend", "AI_README.md"], 3), (["AI_README.md"], 5)] ∧
    (getContextForPath noGlobMatch emptyFs sampleIndex sampleTarget true).all
      (fun c => !(c.path == ["AI_README.md"] && c.distance == 3)) = true :=
  ⟨rfl, rfl⟩

/-- C2 (amended): resolving
`"apps/frontend/src/components/atoms/Button.tsx"` against the index of
`"AI_README.md"` (level 0) and `"apps/frontend/AI_README.md"` (level 2)
returns the frontend entry with distance `3` and relevance `parent` and
the root entry with distance `5` (the segment count of the target's
directory) and relevance `root`, in that order; with
`includeRoot = false` the root entry is removed. -/
theorem sample_resolution :
    (getContextForPath noGlobMatch emptyFs sampleIndex sampleTarget true).map
      (fun c => (c.path, c.distance, c.relevance)) =
      [(["apps", "frontend", "AI_README.md"], 3, Relevance.parent),
        (["AI_README.md"], 5, Relevance.root)] ∧
    (getContextForPath noGlobMatch emptyFs sampleIndex sampleTarget false).map
      (fun c => (c.path, c.distance, c.relevance)) =
      [(["apps", "frontend", "AI_README.md"], 3, Relevance.parent)] :=
  ⟨rfl, rfl⟩

/-! ### Claim C4: sort order of the resolver output -/

/-- C4: for every index and target path, the context list returned by
the resolver is sorted by non-decreasing distance, and among contexts
with equal distance the relevance order `direct` before `parent` before
`root` is respected. -/
theorem resolve_sorted (globM : List String → String → Bool)
    (fs : List String → Option String) (index : ReadmeIndex)
    (targetPath : List String) (includeRoot : Bool) :
    (getContextForPath globM fs index targetPath includeRoot).Pairwise
      (fun a b => a.distance ≤ b.distance ∧
        (a.distance = b.distance →
          relevanceOrder a.relevance ≤ relevanceOrder b.relevance)) := by
  have hs := List.sorted_insertionSort contextLe
    (index.readmes.filterMap (fun readme =>
      if matchesPath globM targetPath readme && (includeRoot || readme.level != 0) then
        some ⟨readme.path, getReadmeContent fs readme,
          determineRelevance targetPath readme, calculateDistance targetPath readme⟩
      else none))
  refine List.Pairwise.imp ?_ hs
  intro a b hab
  unfold contextLe at hab
  exact ⟨by omega, fun _ => by omega⟩

/-! ### Claim C5: ancestor completeness of the resolver -/

/-- C5: for every target path and every indexed entry whose directory is
an ancestor of (or equal to) the target path's directory, or is the
project root, the resolver output includes a context for that entry —
except that level-0 (root) entries are excluded when
`includeRoot = false`. -/
theorem resolve_ancestor_complete (globM : List String → String → Bool)
    (fs : List String → Option String) (index : ReadmeIndex)
    (targetPath : List String) (includeRoot : Bool) (E : ReadmeEntry)
    (hmem : E ∈ index.readmes)
    (hanc : dirOfPath E.path = [] ∨
      (dirOfPath E.path).isPrefixOf (getFileDir targetPath) = true)
    (hroot : includeRoot = true ∨ E.level ≠ 0) :
    ∃ c ∈ getContextForPath globM fs index targetPath includeRoot, c.path = E.path := by
  have hmatch : matchesPath globM targetPath E = true := by
    unfold matchesPath
    rcases hanc with h | h
    · simp [h]
    · by_cases h1 : dirOfPath E.path = []
      · simp [h1]
      · by_cases h2 : getFileDir targetPath = dirOfPath E.path
        · simp [h1, h2]
        · simp [h1, h2, h, bne_iff_ne]
  have hkeep : (matchesPath globM targetPath E && (includeRoot || E.level != 0)) = true := by
    rcases hroot with h | h <;> simp [hmatch, h, bne_iff_ne]
  refine ⟨⟨E.path, getReadmeContent fs E,
    determineRelevance targetPath E, calculateDistance targetPath E⟩, ?_, rfl⟩
  unfold getContextForPath
  rw [(List.perm_insertionSort contextLe _).mem_iff]
  rw [List.mem_filterMap]
  exact ⟨E, hmem, by rw [if_pos hkeep]⟩

/-- Witness for C5: in the scenario index, the frontend entry's
directory `apps/frontend` is an ancestor of the target's directory, and
a context for it is indeed returned. -/
theorem resolve_ancestor_complete_witness :
    sampleFrontendEntry ∈ sampleIndex.readmes ∧
    (dirOfPath sampleFrontendEntry.path = [] ∨
      (dirOfPath sampleFrontendEntry.path).isPrefixOf (getFileDir sampleTarget) = true) ∧
    (true = true ∨ sampleFrontendEntry.level ≠ 0) ∧
    (∃ c ∈ getContextForPath noGlobMatch emptyFs sampleIndex sampleTarget true,
      c.path = sampleFrontendEntry.path) :=
  ⟨by decide, Or.inr (by decide), Or.inl rfl,
    resolve_ancestor_complete noGlobMatch emptyFs sampleIndex sampleTarget true
      sampleFrontendEntry (by decide) (Or.inr (by decide)) (Or.inl rfl)⟩

/-! ### Claim C10: an empty cached body is not served from cache -/

/-- C10: during content resolution, an entry whose cached content is the
empty string is treated as having no cached body: the resolver reads the
document afresh from storage (with the error sentinel on failure),
exactly as it does for an entry with no cached content at all. -/
theorem cached_empty_reads_fresh (fs : List String → Option String)
    (r : ReadmeEntry) (hc : r.content = some "") :
    getReadmeContent fs r = readContentFallback fs r ∧
    getReadmeContent fs r =
      getReadmeContent fs ⟨r.path, r.scope, r.level, r.patterns, none⟩ := by
  obtain ⟨p, sc, lv, pats, co⟩ := r
  cases hc
  exact ⟨rfl, rfl⟩

/-- Witness for C10: an entry caching the empty string is read afresh
from storage, yielding the stored text rather than the cached empty
string. -/
theorem cached_empty_reads_fresh_witness :
    (ReadmeEntry.mk ["X.md"] "x" 1 [] (some "")).content = some "" ∧
    (getReadmeContent (fun _ => some "fresh") ⟨["X.md"], "x", 1, [], some ""⟩ =
        readContentFallback (fun _ => some "fresh") ⟨["X.md"], "x", 1, [], some ""⟩ ∧
      getReadmeContent (fun _ => some "fresh") ⟨["X.md"], "x", 1, [], some ""⟩ =
        getReadmeContent (fun _ => some "fresh") ⟨["X.md"], "x", 1, [], none⟩) :=
  ⟨rfl, cached_empty_reads_fresh (fun _ => some "fresh") ⟨["X.md"], "x", 1, [], some ""⟩ rfl⟩

/-! ### Claim C7: distance monotonicity -/

theorem commonDepth_le_left : ∀ (a b : List String), commonDepth a b ≤ a.length
  | [], _ => by simp [commonDepth]
  | _ :: _, [] => by simp [commonDepth]
  | u :: a, v :: b => by
    by_cases huv : u = v
    · simp only [commonDepth, if_pos huv, List.length_cons]
      exact Nat.succ_le_succ (commonDepth_le_left a b)
    · simp [commonDepth, if_neg huv]

theorem commonDepth_append_of_lt : ∀ (a b : List String) (x : String),
    commonDepth a b < a.length → commonDepth (a ++ [x]) b = commonDepth a b
  | [], _, _, h => by simp [commonDepth] at h
  | _ :: _, [], _, _ => by simp [commonDepth]
  | u :: a, v :: b, x, h => by
    by_cases huv : u = v
    · simp only [List.cons_append, commonDepth, if_pos huv] at h ⊢
      have h' : commonDepth a b < a.length := by
        simp only [List.length_cons] at h
        omega
      exact congrArg (fun n => n + 1) (commonDepth_append_of_lt a b x h')
    · simp [List.cons_append, commonDepth, if_neg huv]

theorem prefix_of_commonDepth_eq : ∀ (a b : List String),
    commonDepth a b = a.length → a <+: b
  | [], _, _ => List.nil_prefix
  | _ :: _, [], h => by simp [commonDepth] at h
  | u :: a, v :: b, h => by
    by_cases huv : u = v
    · subst huv
      simp [commonDepth] at h
      exact List.cons_prefix_cons.mpr ⟨rfl, prefix_of_commonDepth_eq a b (by omega)⟩
    · simp [commonDepth, if_neg huv] at h

theorem commonDepth_append_left : ∀ (u a b : List String),
    commonDepth (u ++ a) (u ++ b) = u.length + commonDepth a b
  | [], _, _ => by simp
  | w :: u, a, b => by
    show (if w = w then commonDepth (u ++ a) (u ++ b) + 1 else 0) =
      (w :: u).length + commonDepth a b
    rw [if_pos rfl, commonDepth_append_left u a b, List.length_cons]
    omega

/-- Core of C7 on `distOfDirs`: extending the file's directory by one
segment, away from the README's directory, never decreases the
distance. -/
theorem distOfDirs_append_le (d r : List String) (x : String)
    (hdot : "." ∉ r)
    (haway : ¬ (d ++ [x]) <+: r) :
    distOfDirs d r ≤ distOfDirs (d ++ [x]) r := by
  have hdx : d ++ [x] ≠ [] := by simp
  by_cases hr : r = []
  · subst hr
    by_cases hd : d = []
    · subst hd
      simp [distOfDirs]
    · have e1 : distOfDirs d [] = d.length := by simp [distOfDirs, hd]
      have e2 : distOfDirs (d ++ [x]) [] = d.length + 1 := by
        simp [distOfDirs, hdx, List.length_append]
      omega
  · by_cases hdr : d = r
    · have h0 : distOfDirs d r = 0 := by
        simp [distOfDirs, hr, hdr]
      rw [h0]
      exact Nat.zero_le _
    · have hdxr : d ++ [x] ≠ r := by
        intro h0
        exact haway (h0 ▸ List.prefix_rfl)
      by_cases hpre : r <+: d
      · -- the target's directory lies strictly under the README's directory
        have hb : (r.isPrefixOf d && d != r) = true := by
          simp [List.isPrefixOf_iff_prefix, hpre, bne_iff_ne, hdr]
        have hpre' : r <+: d ++ [x] := hpre.trans (List.prefix_append d [x])
        have hb' : (r.isPrefixOf (d ++ [x]) && (d ++ [x]) != r) = true := by
          simp [List.isPrefixOf_iff_prefix, hpre', bne_iff_ne, hdxr]
        have hle : r.length ≤ d.length := hpre.length_le
        have e1 : distOfDirs d r = d.length - r.length := by
          simp [distOfDirs, hr, hdr, hb]
        have e2 : distOfDirs (d ++ [x]) r = (d.length + 1) - r.length := by
          simp [distOfDirs, hr, hdxr, hb', List.length_append]
        omega
      · -- divergent directories (or the target's directory above the README's)
        have hnpre' : ¬ r <+: d ++ [x] := by
          intro hp
          by_cases hle : r.length ≤ d.length
          · have h1 := List.prefix_iff_eq_take.mp hp
            rw [List.take_append_of_le_length hle] at h1
            exact hpre (h1 ▸ List.take_prefix r.length d)
          · have heq : r = d ++ [x] := hp.eq_of_length (by
              have hlen := hp.length_le
              rw [List.length_append, List.length_singleton] at hlen ⊢
              omega)
            exact haway (heq ▸ List.prefix_rfl)
        have hb : (r.isPrefixOf d && d != r) = false := by
          simp [List.isPrefixOf_iff_prefix, hpre]
        have hb' : (r.isPrefixOf (d ++ [x]) && (d ++ [x]) != r) = false := by
          simp [List.isPrefixOf_iff_prefix, hnpre']
        have hL : distOfDirs d r =
            ((jsSplitSlash d).length - commonDepth (jsSplitSlash d) (jsSplitSlash r)) +
              ((jsSplitSlash r).length - commonDepth (jsSplitSlash d) (jsSplitSlash r)) := by
          simp [distOfDirs, hr, hdr, hb]
        have hR : distOfDirs (d ++ [x]) r =
            ((jsSplitSlash (d ++ [x])).length -
                commonDepth (jsSplitSlash (d ++ [x])) (jsSplitSlash r)) +
              ((jsSplitSlash r).length -
                commonDepth (jsSplitSlash (d ++ [x])) (jsSplitSlash r)) := by
          simp [distOfDirs, hr, hdxr, hb']
        rw [hL, hR]
        have hsr : jsSplitSlash r = r := by simp [jsSplitSlash, hr]
        have hsx : jsSplitSlash (d ++ [x]) = d ++ [x] := by simp [jsSplitSlash, hdx]
        rw [hsr, hsx]
        by_cases hd0 : d = []
        · -- the target is at the project root: the "." string-split quirk
          subst hd0
          obtain ⟨v, r', rfl⟩ := List.exists_cons_of_ne_nil hr
          have hv : "." ≠ v := fun h0 => hdot (h0 ▸ List.mem_cons_self _ _)
          have hxv : x ≠ v := by
            intro h0
            subst h0
            exact haway (List.cons_prefix_cons.mpr ⟨rfl, List.nil_prefix⟩)
          have hc1 : commonDepth (jsSplitSlash []) (v :: r') = 0 := by
            simp [jsSplitSlash, commonDepth, hv]
          have hc2 : commonDepth ([] ++ [x]) (v :: r') = 0 := by
            simp [commonDepth, hxv]
          rw [hc1, hc2]
          simp [jsSplitSlash]
        · have hsd : jsSplitSlash d = d := by simp [jsSplitSlash, hd0]
          rw [hsd]
          have hcle := commonDepth_le_left d r
          by_cases hc : commonDepth d r < d.length
          · rw [commonDepth_append_of_lt d r x hc, List.length_append, List.length_singleton]
            omega
          · have hceq : commonDepth d r = d.length := by omega
            have hdpr : d <+: r := prefix_of_commonDepth_eq d r hceq
            obtain ⟨t, ht⟩ := hdpr
            have htne : t ≠ [] := by
              intro h0
              rw [h0, List.append_nil] at ht
              exact hdr ht
            obtain ⟨y, t', rfl⟩ := List.exists_cons_of_ne_nil htne
            have hxy : x ≠ y := by
              intro h0
              subst h0
              apply haway
              rw [← ht]
              exact ⟨t', by simp⟩
            have hc' : commonDepth (d ++ [x]) r = d.length := by
              rw [← ht, commonDepth_append_left]
              simp [commonDepth, hxy]
            rw [hceq, hc', List.length_append, List.length_singleton]
            omega

/-- C7: moving the target path one directory level further away from an
entry's directory — the new target's directory extends the old target's
directory by one segment and is not an ancestor of (or equal to) the
entry's directory, which would be moving toward it — never decreases the
distance computed for that entry.  (The entry's directory is assumed not
to contain the literal segment `"."`, which cannot occur in a normalized
relative path.) -/
theorem distance_monotone (readme : ReadmeEntry) (p₁ p₂ : List String) (x : String)
    (hdot : "." ∉ dirOfPath readme.path)
    (hstep : getFileDir p₂ = getFileDir p₁ ++ [x])
    (haway : ¬ getFileDir p₂ <+: dirOfPath readme.path) :
    calculateDistance p₁ readme ≤ calculateDistance p₂ readme := by
  unfold calculateDistance
  rw [hstep] at haway ⊢
  exact distOfDirs_append_le _ _ x hdot haway

/-- Witness for C7: stepping the target from `apps/frontend/src` down to
`apps/frontend/src/sub` moves it one level further from the frontend
entry's directory `apps/frontend`, and the distance grows from `1` to
`2`. -/
theorem distance_monotone_witness :
    "." ∉ dirOfPath sampleFrontendEntry.path ∧
    getFileDir ["apps", "frontend", "src", "sub"] =
      getFileDir ["apps", "frontend", "src"] ++ ["sub"] ∧
    ¬ getFileDir ["apps", "frontend", "src", "sub"] <+: dirOfPath sampleFrontendEntry.path ∧
    calculateDistance ["apps", "frontend", "src"] sampleFrontendEntry ≤
      calculateDistance ["apps", "frontend", "src", "sub"] sampleFrontendEntry :=
  ⟨by decide, rfl, by decide,
    distance_monotone sampleFrontendEntry ["apps", "frontend", "src"]
      ["apps", "frontend", "src", "sub"] "sub" (by decide) rfl (by decide)⟩

/-! ### Scanner (`AIReadmeScanner`, `src/core/scanner.ts`)

File paths stay plain strings here.  The `glob` library call of `scan`
is modelled by the `files` input (the list of matching file paths the
glob walk produced, already filtered by the exclusion patterns), and the
file system by the read function `fs` (`none` models a read failure). -/

/-- Models the scanner's entry record (the same TypeScript `ReadmeEntry`
shape, with the path kept as the plain string the scanner produces). -/
structure ScannedEntry where
  path : String
  scope : String
  level : Nat
  patterns : List String
  content : Option String
deriving DecidableEq, Repr

/-- Models the scanned `ReadmeIndex` (the `Date` timestamp is a plain
number here). -/
structure ScannedIndex where
  projectRoot : String
  readmes : List ScannedEntry
  lastUpdated : Nat
deriving DecidableEq, Repr

/-- The path normalization of `createReadmeEntry`:
`filePath.replace(/\\/g, '/')`. -/
def normalizeSlashes (s : String) : String :=
  String.map (fun c => if c = '\\' then '/' else c) s

/-- Node's `path.dirname` on a normalized relative path string: the part
before the last `/`, or `"."` when there is no `/`. -/
def jsDirname (p : String) : String :=
  let parts := p.splitOn "/"
  if parts.length ≤ 1 then "." else String.intercalate "/" parts.dropLast

/-- Models `AIReadmeScanner.generatePatterns`. -/
def generatePatterns (dir : String) : List String :=
  if dir = "." then ["**/*"]
  else [dir ++ "/**/*", dir ++ "/*"]

/-- Models `AIReadmeScanner.createReadmeEntry`: derive the directory,
level, scope and patterns from the (normalized) path; when content
caching is on, try to read the file and degrade to an absent body when
the read fails (the `catch` branch leaves `content` undefined). -/
def createReadmeEntry (cacheContent : Bool) (fs : String → Option String)
    (filePath : String) : ScannedEntry :=
  let normalizedPath := normalizeSlashes filePath
  let dir := jsDirname normalizedPath
  let level := if dir = "." then 0 else (dir.splitOn "/").length
  let scope := if dir = "." then "root"
    else String.map (fun c => if c = '/' then '-' else c) dir
  let patterns := generatePatterns dir
  let content := if cacheContent then fs filePath else none
  ⟨normalizedPath, scope, level, patterns, content⟩

/-- Models `AIReadmeScanner.scan`: build an entry for every discovered
file and sort ascending by level (the comparator `a.level - b.level`,
modelled by the stable `List.insertionSort`). -/
def scan (files : List String) (cacheContent : Bool) (fs : String → Option String)
    (projectRoot : String) (now : Nat) : ScannedIndex :=
  ⟨projectRoot,
    List.insertionSort (fun a b => a.level ≤ b.level)
      (files.map (createReadmeEntry cacheContent fs)),
    now⟩

/-! ### Claim C8: an unreadable file degrades gracefully -/

/-- C8: when a discovered convention document is unreadable
(`fs f = none`) during a scan with content caching enabled, the scan as
a whole still succeeds (`scan` is total and raises nothing) and the
returned index contains that file's entry, with no cached content and
with path, scope, level and patterns derived exactly as usual — the
derivation never consults the file's content, as witnessed by its
independence from the read function. -/
theorem scan_unreadable_degrades (files : List String) (fs : String → Option String)
    (projectRoot : String) (now : Nat) (f : String)
    (hf : f ∈ files) (hunread : fs f = none) :
    createReadmeEntry true fs f ∈ (scan files true fs projectRoot now).readmes ∧
    (createReadmeEntry true fs f).content = none ∧
    ∀ fs' : String → Option String,
      (createReadmeEntry true fs' f).path = (createReadmeEntry true fs f).path ∧
      (createReadmeEntry true fs' f).scope = (createReadmeEntry true fs f).scope ∧
      (createReadmeEntry true fs' f).level = (createReadmeEntry true fs f).level ∧
      (createReadmeEntry true fs' f).patterns = (createReadmeEntry true fs f).patterns := by
  refine ⟨?_, ?_, fun fs' => ⟨rfl, rfl, rfl, rfl⟩⟩
  · unfold scan
    rw [(List.perm_insertionSort _ _).mem_iff]
    exact List.mem_map_of_mem _ hf
  · simp [createReadmeEntry, hunread]

/-- Witness for C8: scanning a project whose only discovered file
`apps/backend/AI_README.md` is unreadable still indexes it, without
content. -/
theorem scan_unreadable_degrades_witness :
    ("apps/backend/AI_README.md" ∈ ["apps/backend/AI_README.md"]) ∧
    ((fun _ : String => (none : Option String)) "apps/backend/AI_README.md" = none) ∧
    (createReadmeEntry true (fun _ => none) "apps/backend/AI_README.md" ∈
        (scan ["apps/backend/AI_README.md"] true (fun _ => none) "/project" 0).readmes ∧
      (createReadmeEntry true (fun _ => none) "apps/backend/AI_README.md").content = none ∧
      ∀ fs' : String → Option String,
        (createReadmeEntry true fs' "apps/backend/AI_README.md").path =
          (createReadmeEntry true (fun _ => none) "apps/backend/AI_README.md").path ∧
        (createReadmeEntry true fs' "apps/backend/AI_README.md").scope =
          (createReadmeEntry true (fun _ => none) "apps/backend/AI_README.md").scope ∧
        (createReadmeEntry true fs' "apps/backend/AI_README.md").level =
          (createReadmeEntry true (fun _ => none) "apps/backend/AI_README.md").level ∧
        (createReadmeEntry true fs' "apps/backend/AI_README.md").patterns =
          (createReadmeEntry true (fun _ => none) "apps/backend/AI_README.md").patterns) :=
  ⟨List.mem_singleton.mpr rfl, rfl,
    scan_unreadable_degrades ["apps/backend/AI_README.md"] (fun _ => none) "/project" 0
      "apps/backend/AI_README.md" (List.mem_singleton.mpr rfl) rfl⟩

end AiReadme
